import Mathlib

namespace Tallywind

/-!
Verification development for the tallywind repository analysis pipeline.

The definitions below are a shallow embedding of the TypeScript sources:

* `src/lib/tailwind-parser.ts` — file eligibility filter, class extraction
  aggregation (`shouldParseFile`, `countTailwindClasses`);
* `src/lib/git-clone.ts` — local eligibility check
  (`checkRepositoryEligibilityLocal`);
* `src/lib/utils/github.ts` — URL normalization (`normalizeGitHubUrl`);
* `src/lib/services/repository.ts` — the analysis orchestrator
  (`cleanupStaleProcessingStates`, `tryAcquireProcessingLock`,
  `releaseProcessingLock`, `analyzeRepositoryWithSSE`).

JavaScript library primitives (string search, `JSON.parse`, the WHATWG `URL`
constructor, `Date.now`) are modelled explicitly; timestamps are integers in
milliseconds.
-/
/-! ## String helpers (models of JS string primitives) -/
/-- Model of "the first list is an initial segment of the second",
used to build `String.prototype.includes` / `endsWith`. -/
def leadsWith : List Char → List Char → Bool
  | [], _ => true
  | _ :: _, [] => false
  | a :: as, b :: bs => a == b && leadsWith as bs

/-- Model of JS `String.prototype.includes`: the needle occurs somewhere in
the haystack. -/
def occursIn (needle : List Char) : List Char → Bool
  | [] => needle.isEmpty
  | b :: bs => leadsWith needle (b :: bs) || occursIn needle bs

/-- Model of JS `String.prototype.includes` on strings. -/
def strIncludes (s pat : String) : Bool :=
  occursIn pat.data s.data

/-- Model of JS `String.prototype.endsWith` on strings. -/
def strEndsWith (s suf : String) : Bool :=
  leadsWith suf.data.reverse s.data.reverse

/-- Model of JS `String.prototype.toLowerCase` (ASCII case folding, which is
all the source's fixed pattern lists exercise). -/
def jsToLower (s : String) : String :=
  ⟨s.data.map Char.toLower⟩

/-! ## tailwind-parser.ts -/
/-- The fixed extension allow-list `TAILWIND_FILE_EXTENSIONS` from
`src/lib/tailwind-parser.ts`. -/
def TAILWIND_FILE_EXTENSIONS : List String :=
  [".html", ".htm", ".xhtml",
   ".jsx", ".tsx",
   ".vue",
   ".svelte",
   ".astro",
   ".solid", ".solid.js", ".solid.ts",
   ".component.html", ".component.ts", ".ng.html",
   ".lit.js", ".lit.ts",
   ".stencil.tsx",
   ".qwik.tsx", ".qwik.ts",
   ".remix.tsx", ".remix.ts",
   ".page.tsx", ".page.ts", ".layout.tsx", ".layout.ts",
   ".php", ".blade.php", ".twig",
   ".erb", ".haml", ".slim",
   ".html.py", ".jinja", ".jinja2", ".j2",
   ".gohtml", ".gotmpl", ".tmpl",
   ".hbs", ".handlebars",
   ".mustache",
   ".pug", ".jade",
   ".ejs",
   ".njk", ".nunjucks",
   ".liquid",
   ".js", ".ts", ".mjs", ".cjs",
   ".mdx",
   ".webcomponent.js", ".webcomponent.ts",
   ".htmx.html",
   ".alpine.html"]

/-- The fixed exclusion list `skipPatterns` from `shouldParseFile` in
`src/lib/tailwind-parser.ts`. -/
def skipPatterns : List String :=
  ["node_modules/", ".git/", "dist/", "build/", "coverage/",
   ".next/", ".nuxt/", ".output/", "vendor/", "__pycache__/",
   ".pytest_cache/", "target/", "bin/", "obj/", ".vscode/", ".idea/",
   "package-lock.json", "yarn.lock", "pnpm-lock.yaml", ".env",
   "config.js", "config.ts", "webpack.config", "vite.config",
   "rollup.config", "babel.config", "jest.config", "tailwind.config",
   "postcss.config", ".d.ts", "types.ts", "constants.ts", "utils.ts",
   "helpers.ts", "api.ts", "service.ts", "store.ts", "reducer.ts",
   "action.ts", "middleware.ts", "router.ts", "routes.ts"]

/-- Embedding of `shouldParseFile` from `src/lib/tailwind-parser.ts`:
lower-case the path, reject if any skip pattern occurs in it, otherwise
accept exactly when some allow-listed extension is a suffix. -/
def shouldParseFile (fileName : String) : Bool :=
  let lowerCase := jsToLower fileName
  if skipPatterns.any (fun pattern => strIncludes lowerCase pattern) then
    false
  else
    TAILWIND_FILE_EXTENSIONS.any (fun ext => strEndsWith lowerCase ext)

/-- An input file handed to `countTailwindClasses` (`{ name, content }`). -/
structure TWFile where
  name : String
  content : String
deriving DecidableEq, Repr

/-- Embedding of the body of `classCounts[cls] = (classCounts[cls] || 0) + 1`
over a JS object modelled as an insertion-ordered association list: bump the
existing entry, or append a fresh entry with count 1. -/
def recordIncrement : List (String × Nat) → String → List (String × Nat)
  | [], cls => [(cls, 1)]
  | (k, v) :: rest, cls =>
    if k = cls then (k, v + 1) :: rest else (k, v) :: recordIncrement rest cls

/-- Embedding of the per-file loop body of `countTailwindClasses`: skip files
failing `shouldParseFile`, otherwise count every extracted token. -/
def processFile (extractClasses : String → List String)
    (classCounts : List (String × Nat)) (file : TWFile) : List (String × Nat) :=
  if !shouldParseFile file.name then classCounts
  else (extractClasses file.content).foldl recordIncrement classCounts

/-- Embedding of `countTailwindClasses` from `src/lib/tailwind-parser.ts`.
The token extractor (`extractClasses`, two regex passes over the file text in
the source) is passed as a function parameter: the theorems below hold for
every extractor, so they hold in particular for the source's regex passes. -/
def countTailwindClasses (extractClasses : String → List String)
    (files : List TWFile) : List (String × Nat) :=
  files.foldl (processFile extractClasses) []

/-- Total of all counts in a class-count record (sum of the mapping's
values). -/
def recordTotal (m : List (String × Nat)) : Nat :=
  (m.map Prod.snd).sum

/-- Row shape inserted into `tailwind_classes` by the orchestrator. -/
structure NewTailwindClass where
  repo_id : Nat
  class_name : String
  count : Nat
deriving DecidableEq, Repr

/-- Embedding of `Object.entries(classCounts).map(([class_name, count]) =>
(\x7b repo_id, class_name, count \x7d))` from the orchestrator's save step. -/
def classRowsOf (repoId : Nat) (classCounts : List (String × Nat)) :
    List NewTailwindClass :=
  classCounts.map (fun e => ⟨repoId, e.1, e.2⟩)

/-! ## Lemmas about the counting fold -/
/-! ## Claim theorems for the parser component -/
/-! ## git-clone.ts: local eligibility check -/
/-- Result record of `checkRepositoryEligibilityLocal`
(`src/lib/git-clone.ts`). -/
structure EligibilityResult where
  isEligible : Bool
  hasTailwind : Bool
  packageJsonExists : Bool
  reason : Option String
deriving DecidableEq, Repr

/-- The parts of a parsed `package.json` the eligibility check consults: the
key sets of `dependencies` and `devDependencies` (absent sections are the
empty object, as in `packageJson.dependencies || \x7b\x7d`). -/
structure PackageJson where
  dependencies : List String
  devDependencies : List String
deriving DecidableEq, Repr

/-- Embedding of the `hasTailwind` test from `checkRepositoryEligibilityLocal`:
`tailwindcss` or `@tailwindcss/cli` among the keys of `dependencies` or
`devDependencies`. -/
def hasTailwindDep (pkg : PackageJson) : Bool :=
  pkg.dependencies.contains "tailwindcss"
    || pkg.devDependencies.contains "tailwindcss"
    || pkg.dependencies.contains "@tailwindcss/cli"
    || pkg.devDependencies.contains "@tailwindcss/cli"

/-- Embedding of `checkRepositoryEligibilityLocal` from `src/lib/git-clone.ts`.
The filesystem read of `package.json` is modelled by `readPackageJson`
(`none` = the read throws) and `JSON.parse` by the `parse` parameter
(`none` = parse throws). The source wraps the read AND the parse in a single
`try`, whose `catch` returns the missing-manifest result, so `none` from
either produces the same record. -/
def checkRepositoryEligibilityLocal (parse : String → Option PackageJson)
    (readPackageJson : Option String) : EligibilityResult :=
  match readPackageJson with
  | none =>
    ⟨false, false, false, some "No package.json found - not a Node.js project"⟩
  | some content =>
    match parse content with
    | none =>
      ⟨false, false, false, some "No package.json found - not a Node.js project"⟩
    | some pkg =>
      if hasTailwindDep pkg then ⟨true, true, true, none⟩
      else ⟨false, false, true, some "No Tailwind CSS found in dependencies"⟩

/-! ## utils/github.ts: URL normalization -/
/-- Model of JS `String.prototype.trim`: drop whitespace from both ends. -/
def jsTrim (s : String) : String :=
  ⟨((s.data.dropWhile Char.isWhitespace).reverse.dropWhile Char.isWhitespace).reverse⟩

/-- Character class of the owner and name segments in `normalizeGitHubUrl`:
the regex class `[a-zA-Z0-9._-]`. -/
def validNameChar (c : Char) : Bool :=
  c.isAlpha || c.isDigit || c == '.' || c == '_' || c == '-'

/-- Model of JS `String.prototype.split` on a one-character separator. -/
def splitOnChar (sep : Char) : List Char → List (List Char)
  | [] => [[]]
  | c :: cs =>
    let rest := splitOnChar sep cs
    if c == sep then [] :: rest
    else
      match rest with
      | r :: rs => (c :: r) :: rs
      | [] => [[c]]

/-- Embedding of the shorthand test regex
`^[a-zA-Z0-9._-]+\/[a-zA-Z0-9._-]+$` of `normalizeGitHubUrl`: exactly one
slash separating two nonempty runs of allowed characters. -/
def isShortForm (s : String) : Bool :=
  match splitOnChar '/' s.data with
  | [ow, nm] =>
    !ow.isEmpty && !nm.isEmpty && ow.all validNameChar && nm.all validNameChar
  | _ => false

/-- Hostname and pathname of a parsed URL, the two fields
`normalizeGitHubUrl` consults. -/
structure ParsedUrl where
  hostname : String
  pathname : String
deriving DecidableEq, Repr

/-- Locate the first "://" in a character list, returning the text before it
and the text after it. -/
def breakAtSchemeSep : List Char → Option (List Char × List Char)
  | [] => none
  | c :: cs =>
    if leadsWith "://".data (c :: cs) then some ([], cs.drop 2)
    else
      match breakAtSchemeSep cs with
      | some (pre, post) => some (c :: pre, post)
      | none => none

/-- Model of the WHATWG `URL` constructor restricted to what
`normalizeGitHubUrl` consults: `scheme://host/path` gives hostname `host` and
pathname `/path` (a bare `scheme://host` gives pathname "/"); an input without
a `scheme://` separator throws (`none`). -/
def parseUrl (s : String) : Option ParsedUrl :=
  match breakAtSchemeSep s.data with
  | none => none
  | some (scheme, rest) =>
    if scheme.isEmpty then none
    else
      some ⟨⟨rest.takeWhile (fun c => !(c == '/'))⟩,
        match rest.dropWhile (fun c => !(c == '/')) with
        | [] => "/"
        | p => ⟨p⟩⟩

/-- Body of `normalizeGitHubUrl` from the shorthand test on, applied to the
already-trimmed, slash-stripped `cleaned` string: shorthand `owner/name` is
completed to the full URL; otherwise the input is parsed as a URL (with
`https://` prefixed when it does not start with `http`), the host must be
`github.com`, and the first two nonempty path segments are validated against
the name charset and reassembled. Thrown errors are `Except.error`. -/
def normalizeCleaned (cleaned : String) : Except String String :=
  if isShortForm cleaned then .ok ("https://github.com/" ++ cleaned)
  else
    match parseUrl
        (if leadsWith "http".data cleaned.data then cleaned
         else "https://" ++ cleaned) with
    | none => .error "Invalid URL format"
    | some url =>
      if url.hostname ≠ "github.com" then .error "URL must be from github.com"
      else
        match (splitOnChar '/' url.pathname.data).filter
            (fun part => decide (0 < part.length)) with
        | ow :: nm :: _ =>
          if ow.all validNameChar && nm.all validNameChar then
            .ok ("https://github.com/" ++ ⟨ow⟩ ++ "/" ++ ⟨nm⟩)
          else .error "Invalid GitHub repository name format"
        | _ => .error "Invalid GitHub repository URL - missing owner or repository name"

/-- Embedding of `normalizeGitHubUrl` from `src/lib/utils/github.ts`: empty
input throws (`!input`), the input is trimmed, one trailing slash is stripped,
and the result is handled by `normalizeCleaned`. -/
def normalizeGitHubUrl (input : String) : Except String String :=
  if input = "" then .error "Repository input is required"
  else if strEndsWith (jsTrim input) "/" then
    normalizeCleaned ⟨(jsTrim input).data.dropLast⟩
  else normalizeCleaned (jsTrim input)

/-! ## Lemmas for the shorthand branch -/
/-! ## services/repository.ts: store model and lock manager -/
/-- A row of the `repositories` table (introspected schema in
`drizzle/relations.ts`); timestamps are integers in milliseconds, `status` is
the raw varchar. -/
structure Repository where
  id : Nat
  url : String
  owner : String
  name : String
  default_branch : Option String
  analyzed_at : Int
  status : String
  is_eligible : Option Bool
  has_tailwind : Option Bool
  has_package_json : Option Bool
  eligibility_reason : Option String
  total_files : Option Nat
  processed_files : Option Nat
  total_classes : Option Nat
  processing_started_at : Option Int
deriving DecidableEq, Repr

/-- Staleness threshold: ten minutes in milliseconds
(`10 * 60 * 1000` in `cleanupStaleProcessingStates`). -/
def staleMs : Int := 10 * 60 * 1000

/-- Cache freshness threshold: 48 hours in milliseconds (the SSE entry point
compares `hoursSinceLastUpdate < 48`). -/
def freshMs : Int := 48 * 60 * 60 * 1000

/-- Embedding of `cleanupStaleProcessingStates` over the store restricted to
one URL (`Option Repository` is the record for that URL, if any): the UPDATE
matches rows with `status = 'processing'` and non-null
`processing_started_at < now - 10min` (SQL `lt` is strict and never matches
NULL) and resets them to `failed` with a cleared timestamp. -/
def cleanupStaleProcessingStates (now : Int) (d : Option Repository) :
    Option Repository :=
  match d with
  | none => none
  | some r =>
    match r.processing_started_at with
    | some t =>
      if r.status = "processing" ∧ t < now - staleMs then
        some { r with status := "failed", processing_started_at := none }
      else some r
    | none => some r

/-- Embedding of `tryAcquireProcessingLock` under sequential (non-interleaved)
execution: run the stale cleanup, SELECT the record, return null when it is
absent, completed-without-force, or processing, else UPDATE it to
`processing` with a fresh timestamp and return the updated row. The result is
(store after the call, returned record). -/
def tryAcquireProcessingLock (now : Int) (forceReprocess : Bool)
    (d : Option Repository) : Option Repository × Option Repository :=
  match cleanupStaleProcessingStates now d with
  | some existingRepo =>
    if existingRepo.status = "completed" ∧ forceReprocess = false then
      (some existingRepo, none)
    else if existingRepo.status = "processing" then
      (some existingRepo, none)
    else
      (some { existingRepo with
                status := "processing"
                processing_started_at := some now },
       some { existingRepo with
                status := "processing"
                processing_started_at := some now })
  | none => (none, none)

/-- Embedding of `releaseProcessingLock`: UPDATE by id setting the final
status, clearing the processing timestamp and refreshing `analyzed_at`. -/
def releaseProcessingLock (now : Int) (repoId : Nat) (finalStatus : String)
    (d : Option Repository) : Option Repository :=
  match d with
  | none => none
  | some r =>
    if r.id = repoId then
      some { r with
               status := finalStatus
               processing_started_at := none
               analyzed_at := now }
    else some r

/-! ## Interleaved executions of tryAcquireProcessingLock (claim C1)

`tryAcquireProcessingLock` issues three separate store operations — the
cleanup UPDATE, the SELECT, and the conditional UPDATE — with no transaction
around them. Each operation is atomic at the store; the sequence is not. A
thread models one invocation, a schedule chooses which thread performs its
next operation. -/
/-- Local state of one in-flight invocation of `tryAcquireProcessingLock`:
program counter 0 = about to run the cleanup UPDATE, 1 = about to run the
SELECT, 2 = about to run the check-then-UPDATE, 3 = returned. -/
structure LockThread where
  pc : Nat
  forceReprocess : Bool
  observed : Option Repository
  result : Option Repository
deriving DecidableEq, Repr

/-- Fresh thread for one invocation. -/
def lockThreadStart (force : Bool) : LockThread := ⟨0, force, none, none⟩

/-- One atomic store operation of an in-flight `tryAcquireProcessingLock`
invocation. The check at pc 2 uses the record observed by this thread's own
SELECT; the UPDATE is keyed on that record's id, exactly as in the source. -/
def lockThreadStep (now : Int) (d : Option Repository) (t : LockThread) :
    Option Repository × LockThread :=
  match t.pc with
  | 0 => (cleanupStaleProcessingStates now d, { t with pc := 1 })
  | 1 => (d, { t with observed := d, pc := 2 })
  | 2 =>
    match t.observed with
    | some existingRepo =>
      if existingRepo.status = "completed" ∧ t.forceReprocess = false then
        (d, { t with result := none, pc := 3 })
      else if existingRepo.status = "processing" then
        (d, { t with result := none, pc := 3 })
      else
        match d with
        | some r =>
          if r.id = existingRepo.id then
            (some { r with
                      status := "processing"
                      processing_started_at := some now },
             { t with
                 result := some { r with
                                    status := "processing"
                                    processing_started_at := some now }
                 pc := 3 })
          else (d, { t with result := none, pc := 3 })
        | none => (d, { t with result := none, pc := 3 })
    | none => (d, { t with result := none, pc := 3 })
  | _ => (d, t)

/-- Run two concurrent invocations under a schedule: `false` steps the first
invocation, `true` the second. Returns the final store and both threads. -/
def runLockRace (now : Int) :
    List Bool → Option Repository → LockThread → LockThread →
      Option Repository × LockThread × LockThread
  | [], d, a, b => (d, a, b)
  | s :: rest, d, a, b =>
    if s then
      runLockRace now rest (lockThreadStep now d b).1 a (lockThreadStep now d b).2
    else
      runLockRace now rest (lockThreadStep now d a).1 (lockThreadStep now d a).2 b

/-- A concrete reclaimable record used to exhibit the lock race. -/
def raceRepo : Repository :=
  { id := 1, url := "https://github.com/acme/app", owner := "acme", name := "app",
    default_branch := some "main", analyzed_at := 0, status := "failed",
    is_eligible := some true, has_tailwind := some true,
    has_package_json := some true, eligibility_reason := none,
    total_files := none, processed_files := none, total_classes := none,
    processing_started_at := none }

/-! ## The SSE entry decision (analyzeRepositoryWithSSE lines 528-576) -/
/-- Outcome of the entry prefix of `analyzeRepositoryWithSSE`: serve the
cache, report a concurrent-processing conflict, proceed without a lock
(fresh repository), or proceed holding the acquired lock (reprocessing). -/
inductive SSEOutcome
  | cacheHit
  | conflict
  | freshAnalysis
  | lockAcquired (locked : Repository)
deriving DecidableEq, Repr

/-- Embedding of the decision prefix of `analyzeRepositoryWithSSE`: look up
the record; a completed record younger than 48 hours is a cache hit; a
`processing` record is a conflict (this check runs BEFORE any stale cleanup);
otherwise call `tryAcquireProcessingLock` with
`needsReprocessing = (status === 'completed')`. Returns the store after the
prefix and the outcome. -/
def sseEntryDecision (now : Int) (d : Option Repository) :
    Option Repository × SSEOutcome :=
  match d with
  | some existingRepo =>
    if existingRepo.status = "completed" ∧ now - existingRepo.analyzed_at < freshMs then
      (d, SSEOutcome.cacheHit)
    else if existingRepo.status = "processing" then
      (d, SSEOutcome.conflict)
    else
      match (tryAcquireProcessingLock now
          (existingRepo.status == "completed") d).2 with
      | some locked =>
        ((tryAcquireProcessingLock now (existingRepo.status == "completed") d).1,
         SSEOutcome.lockAcquired locked)
      | none =>
        ((tryAcquireProcessingLock now (existingRepo.status == "completed") d).1,
         SSEOutcome.freshAnalysis)
  | none =>
    match (tryAcquireProcessingLock now false d).2 with
    | some locked =>
      ((tryAcquireProcessingLock now false d).1, SSEOutcome.lockAcquired locked)
    | none =>
      ((tryAcquireProcessingLock now false d).1, SSEOutcome.freshAnalysis)

/-- A concrete completed record, analyzed at time 0, used to witness the
cache freshness boundary. -/
def cachedRepo : Repository :=
  { id := 4, url := "https://github.com/acme/cached", owner := "acme",
    name := "cached", default_branch := some "main", analyzed_at := 0,
    status := "completed", is_eligible := some true, has_tailwind := some true,
    has_package_json := some true, eligibility_reason := none,
    total_files := some 12, processed_files := some 12,
    total_classes := some 340, processing_started_at := none }

/-- A `processing` record whose lock is 11 minutes old at time 100000000. -/
def staleRepo : Repository :=
  { id := 2, url := "https://github.com/acme/stale", owner := "acme",
    name := "stale", default_branch := some "main",
    analyzed_at := 100000000 - 660000, status := "processing",
    is_eligible := some true, has_tailwind := some true,
    has_package_json := some true, eligibility_reason := none,
    total_files := some 10, processed_files := some 3, total_classes := none,
    processing_started_at := some (100000000 - 660000) }

/-- A `processing` record whose lock is 9 minutes old at time 100000000. -/
def nineMinRepo : Repository :=
  { id := 3, url := "https://github.com/acme/live", owner := "acme",
    name := "live", default_branch := some "main",
    analyzed_at := 100000000 - 540000, status := "processing",
    is_eligible := some true, has_tailwind := some true,
    has_package_json := some true, eligibility_reason := none,
    total_files := some 10, processed_files := some 3, total_classes := none,
    processing_started_at := some (100000000 - 540000) }

/-! ## Writes of the analysis pipeline (claim C4) -/
/-- The invariant of the data model: `processing_started_at` is non-null iff
`status = 'processing'`. -/
def repoInvariant (r : Repository) : Prop :=
  r.processing_started_at ≠ none ↔ r.status = "processing"

/-- The record inserted for a fresh ineligible repository
(`analyzeRepositoryWithSSE` lines 600-614, `analyzeRepository` lines 62-76). -/
def ineligibleInsert (rid : Nat) (repoUrl ow nm : String) (branch : Option String)
    (now : Int) (elig : EligibilityResult) : Repository :=
  { id := rid, url := repoUrl, owner := ow, name := nm, default_branch := branch,
    analyzed_at := now, status := "ineligible", is_eligible := some false,
    has_tailwind := some elig.hasTailwind,
    has_package_json := some elig.packageJsonExists,
    eligibility_reason := elig.reason, total_files := none,
    processed_files := none, total_classes := none,
    processing_started_at := none }

/-- The record inserted by `analyzeRepository` for a fresh ELIGIBLE repository
(lines 82-96): `status: 'processing'` with `processing_started_at: null`. -/
def legacyProcessingInsert (rid : Nat) (repoUrl ow nm : String)
    (branch : Option String) (now : Int) (elig : EligibilityResult) : Repository :=
  { id := rid, url := repoUrl, owner := ow, name := nm, default_branch := branch,
    analyzed_at := now, status := "processing", is_eligible := some true,
    has_tailwind := some elig.hasTailwind,
    has_package_json := some elig.packageJsonExists,
    eligibility_reason := none, total_files := none, processed_files := none,
    total_classes := none, processing_started_at := none }

/-- The record inserted by `analyzeRepositoryWithSSE` for a fresh eligible
repository (lines 625-638): `status: 'processing'` with a fresh timestamp. -/
def sseProcessingInsert (rid : Nat) (repoUrl ow nm : String)
    (branch : Option String) (now : Int) (elig : EligibilityResult) : Repository :=
  { id := rid, url := repoUrl, owner := ow, name := nm, default_branch := branch,
    analyzed_at := now, status := "processing", is_eligible := some true,
    has_tailwind := some elig.hasTailwind,
    has_package_json := some elig.packageJsonExists,
    eligibility_reason := none, total_files := none, processed_files := none,
    total_classes := none, processing_started_at := some now }

/-- The UPDATE of `tryAcquireProcessingLock` (lines 286-293). -/
def acquireUpdate (now : Int) (r : Repository) : Repository :=
  { r with status := "processing", processing_started_at := some now }

/-- The `total_files`/`processed_files` reset (lines 645-651 and 849-855). -/
def fileCountsUpdate (n : Nat) (r : Repository) : Repository :=
  { r with total_files := some n, processed_files := some 0 }

/-- The per-file `processed_files` update (lines 690-693 and 894-897). -/
def progressUpdate (k : Nat) (r : Repository) : Repository :=
  { r with processed_files := some k }

/-- The ineligible-on-reprocess UPDATE (lines 823-834). -/
def ineligibleUpdate (now : Int) (elig : EligibilityResult) (r : Repository) :
    Repository :=
  { r with
      status := "ineligible"
      processing_started_at := none
      analyzed_at := now
      is_eligible := some false
      has_tailwind := some elig.hasTailwind
      has_package_json := some elig.packageJsonExists
      eligibility_reason := elig.reason }

/-- The completion UPDATE (lines 763-771 and 967-975). -/
def completionUpdate (now : Int) (totalClasses : Nat) (r : Repository) :
    Repository :=
  { r with
      status := "completed"
      analyzed_at := now
      processing_started_at := none
      total_classes := some totalClasses }

/-- The UPDATE of `releaseProcessingLock` (lines 309-316) applied to a row. -/
def releaseUpdate (now : Int) (finalStatus : String) (r : Repository) :
    Repository :=
  { r with
      status := finalStatus
      processing_started_at := none
      analyzed_at := now }

/-! ## Event-channel trace model of analyzeRepositoryWithSSE (claim C5) -/
/-- The four event kinds of the SSE channel (`src/lib/sse.ts`). -/
inductive SSEEventKind
  | progress
  | fileProcessed
  | completed
  | error
deriving DecidableEq, Repr

/-- One action on the run's event channel: emit an event, or close it. -/
inductive ChannelAction
  | emit (e : SSEEventKind)
  | close
deriving DecidableEq, Repr

/-- Terminal events: `completed` and `error`. -/
def isTerminal : SSEEventKind → Bool
  | SSEEventKind.completed => true
  | SSEEventKind.error => true
  | _ => false

/-- Result of `analyzeRepositoryLocal`: null (clone failure), or eligibility
plus the file listing, each path paired with the result of reading it
(`none` = the read failed and the file is skipped). -/
inductive CloneResult
  | failure
  | success (eligibility : EligibilityResult) (files : List (String × Option String))

/-- Environment of one run of `analyzeRepositoryWithSSE`: the inputs and
external results that determine its control flow. `crash` injects an
unhandled exception after the given number of channel actions (modelling a
failure at an await point; the emit/close operations themselves do not
throw, and no statement separates a terminal emit from its close). -/
structure RunEnv where
  dbAvailable : Bool
  parsedOk : Bool
  existing : Option Repository
  now : Int
  clone : CloneResult
  extract : String → List String
  crash : Option Nat

/-- The two channel actions emitted per eligible file in the processing loop:
a `parsing` progress event before the read and a `file-processed` event after
it. -/
def perFileEvents (eligibleFiles : List (String × Option String)) :
    List ChannelAction :=
  (eligibleFiles.map (fun _ =>
    [ChannelAction.emit SSEEventKind.progress,
     ChannelAction.emit SSEEventKind.fileProcessed])).flatten

/-- The files whose content was read successfully, as handed to
`countTailwindClasses`. -/
def filesToProcess (files : List (String × Option String)) : List TWFile :=
  (files.filter (fun f => shouldParseFile f.1)).filterMap
    (fun f => f.2.map (fun c => TWFile.mk f.1 c))

/-- Number of batch INSERTs in the save step: `BATCH_SIZE = 100` rows per
statement. -/
def batchCount (extract : String → List String)
    (files : List (String × Option String)) : Nat :=
  ((classRowsOf 0 (countTailwindClasses extract (filesToProcess files))).length
    + 99) / 100

/-- Channel actions of the eligible-repository analysis phase: the `parsing`
progress event with the file totals, the per-file events, the `analyzing` and
`saving` progress events, one progress event per saved batch, then the
`completed` payload and the close. -/
def analysisEvents (extract : String → List String)
    (files : List (String × Option String)) : List ChannelAction :=
  ChannelAction.emit SSEEventKind.progress ::
    (perFileEvents (files.filter (fun f => shouldParseFile f.1))
     ++ [ChannelAction.emit SSEEventKind.progress,
         ChannelAction.emit SSEEventKind.progress]
     ++ List.replicate (batchCount extract files)
         (ChannelAction.emit SSEEventKind.progress)
     ++ [ChannelAction.emit SSEEventKind.completed, ChannelAction.close])

/-- The channel actions of one run of `analyzeRepositoryWithSSE` when no
exception interrupts it, following the source's control flow: unavailable
store and unparseable URL emit an error and close; otherwise the initial
`fetching` progress event is emitted, then the entry decision routes to the
cache-hit, conflict, fresh-analysis or reprocessing path; both analysis paths
emit a `Cloning` progress event, then either the clone-failure or
ineligibility error or the full analysis trace. -/
def bodyTrace (env : RunEnv) : List ChannelAction :=
  if env.dbAvailable = false then
    [ChannelAction.emit SSEEventKind.error, ChannelAction.close]
  else if env.parsedOk = false then
    [ChannelAction.emit SSEEventKind.error, ChannelAction.close]
  else
    ChannelAction.emit SSEEventKind.progress ::
      (match (sseEntryDecision env.now env.existing).2 with
       | SSEOutcome.cacheHit =>
         [ChannelAction.emit SSEEventKind.completed, ChannelAction.close]
       | SSEOutcome.conflict =>
         [ChannelAction.emit SSEEventKind.error, ChannelAction.close]
       | SSEOutcome.freshAnalysis =>
         ChannelAction.emit SSEEventKind.progress ::
           (match env.clone with
            | CloneResult.failure =>
              [ChannelAction.emit SSEEventKind.error, ChannelAction.close]
            | CloneResult.success elig files =>
              if elig.isEligible = false then
                [ChannelAction.emit SSEEventKind.error, ChannelAction.close]
              else analysisEvents env.extract files)
       | SSEOutcome.lockAcquired _ =>
         ChannelAction.emit SSEEventKind.progress ::
           (match env.clone with
            | CloneResult.failure =>
              [ChannelAction.emit SSEEventKind.error, ChannelAction.close]
            | CloneResult.success elig files =>
              if elig.isEligible = false then
                [ChannelAction.emit SSEEventKind.error, ChannelAction.close]
              else analysisEvents env.extract files))

/-- The channel actions of one run including the top-level catch: an
exception thrown at an await point truncates the body's trace and appends the
catch's error event and close. An exception cannot fire between a terminal
emit and its close (they are adjacent channel operations), so crash points at
or beyond the body's terminal emit leave the body trace intact. -/
def runTrace (env : RunEnv) : List ChannelAction :=
  match env.crash with
  | none => bodyTrace env
  | some k =>
    if k < (bodyTrace env).length - 2 then
      (bodyTrace env).take k
        ++ [ChannelAction.emit SSEEventKind.error, ChannelAction.close]
    else bodyTrace env

/-- A trace prefix is clean when it closes nothing and emits no terminal
event. -/
def cleanPre (pre : List ChannelAction) : Prop :=
  ∀ a ∈ pre, a ≠ ChannelAction.close
    ∧ ∀ e, a = ChannelAction.emit e → isTerminal e = false

/-- The well-formed trace shape: a clean prefix, one terminal emit, one close
right after it, nothing further. -/
def traceShape (tr : List ChannelAction) : Prop :=
  ∃ pre t, tr = pre ++ [ChannelAction.emit t, ChannelAction.close]
    ∧ isTerminal t = true ∧ cleanPre pre

/-! ## Claim theorems for the lock manager and pipeline writes -/
/-! ## Trace-shape lemmas and claim C5 -/
theorem recordTotal_recordIncrement (m : List (String × Nat)) (cls : String) :
    recordTotal (recordIncrement m cls) = recordTotal m + 1 := by
  induction m with
  | nil => simp [recordIncrement, recordTotal]
  | cons kv rest ih =>
    obtain ⟨k, v⟩ := kv
    by_cases h : k = cls <;>
      simp [recordIncrement, recordTotal, h] at ih ⊢ <;> omega

theorem recordTotal_foldl (toks : List String) (m : List (String × Nat)) :
    recordTotal (toks.foldl recordIncrement m) = recordTotal m + toks.length := by
  induction toks generalizing m with
  | nil => simp
  | cons t ts ih =>
    simp only [List.foldl_cons, ih, recordTotal_recordIncrement, List.length_cons]
    omega

theorem recordTotal_countFold (extract : String → List String)
    (fs : List TWFile) (m : List (String × Nat)) :
    recordTotal (fs.foldl (processFile extract) m)
      = recordTotal m
        + ((fs.filter (fun f => shouldParseFile f.name)).map
            (fun f => (extract f.content).length)).sum := by
  induction fs generalizing m with
  | nil => simp
  | cons f fs ih =>
    by_cases h : shouldParseFile f.name = true
    · have hstep : processFile extract m f = (extract f.content).foldl recordIncrement m := by
        simp [processFile, h]
      rw [List.foldl_cons, hstep, ih, recordTotal_foldl, List.filter_cons, if_pos h,
        List.map_cons, List.sum_cons]
      omega
    · have hstep : processFile extract m f = m := by
        simp [processFile, h]
      rw [List.foldl_cons, hstep, ih, List.filter_cons, if_neg h]

theorem recordIncrement_entries (G : String → Prop) (m : List (String × Nat))
    (cls : String) (hm : ∀ kv ∈ m, 1 ≤ kv.2 ∧ G kv.1) (hc : G cls) :
    ∀ kv ∈ recordIncrement m cls, 1 ≤ kv.2 ∧ G kv.1 := by
  induction m with
  | nil =>
    intro kv hkv
    simp [recordIncrement] at hkv
    subst hkv
    exact ⟨by omega, hc⟩
  | cons kv0 rest ih =>
    obtain ⟨k, v⟩ := kv0
    intro kv hkv
    by_cases h : k = cls
    · simp only [recordIncrement, if_pos h] at hkv
      rcases List.mem_cons.mp hkv with h1 | h1
      · subst h1
        exact ⟨by omega, (hm (k, v) (by simp)).2⟩
      · exact hm kv (List.mem_cons_of_mem _ h1)
    · simp only [recordIncrement, if_neg h] at hkv
      rcases List.mem_cons.mp hkv with h1 | h1
      · subst h1
        exact hm (k, v) (by simp)
      · exact ih (fun u hu => hm u (List.mem_cons_of_mem _ hu)) kv h1

theorem foldl_recordIncrement_entries (G : String → Prop) (toks : List String)
    (m : List (String × Nat)) (hm : ∀ kv ∈ m, 1 ≤ kv.2 ∧ G kv.1)
    (ht : ∀ t ∈ toks, G t) :
    ∀ kv ∈ toks.foldl recordIncrement m, 1 ≤ kv.2 ∧ G kv.1 := by
  induction toks generalizing m with
  | nil => simpa using hm
  | cons t ts ih =>
    intro kv hkv
    simp only [List.foldl_cons] at hkv
    exact ih (recordIncrement m t) (recordIncrement_entries G m t hm (ht t (by simp)))
      (fun u hu => ht u (by simp [hu])) kv hkv

theorem countFold_entries (extract : String → List String) (G : String → Prop)
    (fs : List TWFile) (m : List (String × Nat))
    (hm : ∀ kv ∈ m, 1 ≤ kv.2 ∧ G kv.1)
    (hf : ∀ f ∈ fs, shouldParseFile f.name = true → ∀ t ∈ extract f.content, G t) :
    ∀ kv ∈ fs.foldl (processFile extract) m, 1 ≤ kv.2 ∧ G kv.1 := by
  induction fs generalizing m with
  | nil => simpa using hm
  | cons f fs ih =>
    intro kv hkv
    simp only [List.foldl_cons] at hkv
    by_cases h : shouldParseFile f.name = true
    · have hstep : processFile extract m f = (extract f.content).foldl recordIncrement m := by
        simp [processFile, h]
      rw [hstep] at hkv
      exact ih _ (foldl_recordIncrement_entries G _ m hm (hf f (by simp) h))
        (fun g hg hp t htt => hf g (by simp [hg]) hp t htt) kv hkv
    · have hstep : processFile extract m f = m := by
        simp [processFile, h]
      rw [hstep] at hkv
      exact ih m hm (fun g hg hp t htt => hf g (by simp [hg]) hp t htt) kv hkv

/-- C7: `shouldParseFile` is a pure function of the path string; any path whose
lower-cased form contains one of the fixed skip patterns is rejected regardless
of extension (exclusion is checked first and wins), and the function returns
`true` only if the lower-cased path ends with one of the fixed allow-listed
extensions. -/
theorem shouldParseFile_exclusion_extension (path : String) :
    ((∃ p ∈ skipPatterns, strIncludes (jsToLower path) p = true) →
      shouldParseFile path = false)
  ∧ (shouldParseFile path = true →
      ∃ ext ∈ TAILWIND_FILE_EXTENSIONS, strEndsWith (jsToLower path) ext = true) := by
  constructor
  · rintro ⟨p, hp, hinc⟩
    have hany : skipPatterns.any (fun pattern => strIncludes (jsToLower path) pattern) = true :=
      List.any_eq_true.mpr ⟨p, hp, hinc⟩
    simp only [shouldParseFile, hany, if_true]
  · intro h
    by_cases hany : skipPatterns.any (fun pattern => strIncludes (jsToLower path) pattern) = true
    · simp only [shouldParseFile, hany, if_true] at h
      exact absurd h (by simp)
    · rw [shouldParseFile] at h
      rw [if_neg hany] at h
      exact List.any_eq_true.mp h

/-- Witness for C7 at concrete paths: an excluded directory marker rejects a
path despite an allow-listed extension, and an accepted path carries an
allow-listed extension. -/
theorem shouldParseFile_exclusion_extension_witness :
    shouldParseFile "node_modules/App.html" = false
  ∧ ∃ ext ∈ TAILWIND_FILE_EXTENSIONS,
      strEndsWith (jsToLower "src/App.html") ext = true :=
  ⟨(shouldParseFile_exclusion_extension "node_modules/App.html").1
      ⟨"node_modules/", by decide, by decide⟩,
   (shouldParseFile_exclusion_extension "src/App.html").2 (by decide)⟩

/-- C8: for every extractor and every list of input files, the total of the
mapping produced by `countTailwindClasses` equals the sum, over the files
passing `shouldParseFile`, of the number of tokens the extractor returns on
that file's content; and the computation is deterministic (identical input
yields an identical mapping). -/
theorem countTailwindClasses_conservation (extract : String → List String)
    (files : List TWFile) :
    recordTotal (countTailwindClasses extract files)
      = ((files.filter (fun f => shouldParseFile f.name)).map
          (fun f => (extract f.content).length)).sum
  ∧ ∀ files2, files2 = files →
      countTailwindClasses extract files2 = countTailwindClasses extract files := by
  refine ⟨?_, fun files2 h => by rw [h]⟩
  have h := recordTotal_countFold extract files []
  simpa [countTailwindClasses, recordTotal] using h

/-- Witness for C8 on a concrete run: one eligible and one excluded file with a
two-token extractor give total 2, and re-running yields the same mapping. -/
theorem countTailwindClasses_conservation_witness :
    recordTotal (countTailwindClasses (fun s => [s, s])
        [⟨"a.html", "p-4"⟩, ⟨"node_modules/b.html", "m-2"⟩]) = 2
  ∧ countTailwindClasses (fun s => [s, s])
        [⟨"a.html", "p-4"⟩, ⟨"node_modules/b.html", "m-2"⟩]
      = countTailwindClasses (fun s => [s, s])
        [⟨"a.html", "p-4"⟩, ⟨"node_modules/b.html", "m-2"⟩] := by
  refine ⟨?_, (countTailwindClasses_conservation (fun s => [s, s])
    [⟨"a.html", "p-4"⟩, ⟨"node_modules/b.html", "m-2"⟩]).2 _ rfl⟩
  rw [(countTailwindClasses_conservation (fun s => [s, s])
    [⟨"a.html", "p-4"⟩, ⟨"node_modules/b.html", "m-2"⟩]).1]
  decide

/-- C10: every value in the mapping produced by `countTailwindClasses` is at
least 1 and every key is a token extracted from some file passing the filter;
consequently every class-count row built from the mapping by the orchestrator
has count at least 1 (never 0). -/
theorem countTailwindClasses_positive (extract : String → List String)
    (files : List TWFile) (repoId : Nat) :
    (∀ kv ∈ countTailwindClasses extract files,
        1 ≤ kv.2 ∧ ∃ f ∈ files, shouldParseFile f.name = true ∧ kv.1 ∈ extract f.content)
  ∧ ∀ row ∈ classRowsOf repoId (countTailwindClasses extract files),
      1 ≤ row.count := by
  have main : ∀ kv ∈ countTailwindClasses extract files,
      1 ≤ kv.2 ∧ ∃ f ∈ files, shouldParseFile f.name = true ∧ kv.1 ∈ extract f.content := by
    intro kv hkv
    exact countFold_entries extract
      (fun k => ∃ f ∈ files, shouldParseFile f.name = true ∧ k ∈ extract f.content)
      files [] (by simp) (fun f hf hp t ht => ⟨f, hf, hp, ht⟩) kv hkv
  refine ⟨main, ?_⟩
  intro row hrow
  simp only [classRowsOf, List.mem_map] at hrow
  obtain ⟨e, he, hre⟩ := hrow
  have := (main e he).1
  rw [← hre]
  exact this

/-- Witness for C10: on a concrete run the single produced entry has value 1,
traceable to the eligible file, and the built row has positive count. -/
theorem countTailwindClasses_positive_witness :
    (1 ≤ (("p-4", 1) : String × Nat).2
      ∧ ∃ f ∈ [(⟨"a.html", "p-4"⟩ : TWFile)],
          shouldParseFile f.name = true ∧ ("p-4", 1).1 ∈ (fun s => [s]) f.content)
  ∧ ∀ row ∈ classRowsOf 7 (countTailwindClasses (fun s => [s])
        [(⟨"a.html", "p-4"⟩ : TWFile)]), 1 ≤ row.count :=
  ⟨(countTailwindClasses_positive (fun s => [s]) [⟨"a.html", "p-4"⟩] 7).1
      ("p-4", 1) (by decide),
   (countTailwindClasses_positive (fun s => [s]) [⟨"a.html", "p-4"⟩] 7).2⟩

/-- C6 counterexample: a `package.json` that exists but is not valid JSON makes
`checkRepositoryEligibilityLocal` report `packageJsonExists = false` and the
missing-manifest reason, because the read and the parse share one `catch`; the
claim requires `packageJsonExists` to report existence correctly and a reason
specific to the parse failure. -/
theorem eligibility_unparseable_misreported :
    (some "not valid json" : Option String).isSome = true
  ∧ (checkRepositoryEligibilityLocal (fun _ => none)
      (some "not valid json")).packageJsonExists = false
  ∧ (checkRepositoryEligibilityLocal (fun _ => none)
      (some "not valid json")).reason
      = some "No package.json found - not a Node.js project" := by
  decide

/-- C6 amended: `isEligible = true` iff the manifest exists, parses and
declares `tailwindcss` or `@tailwindcss/cli` in `dependencies` or
`devDependencies`; a missing manifest and an unparseable manifest yield the
SAME record — `isEligible = false`, `packageJsonExists = false` in both cases,
with the single reason string `"No package.json found - not a Node.js
project"`; a parsed manifest without the dependency yields
`packageJsonExists = true` and the no-framework reason. -/
theorem checkRepositoryEligibilityLocal_amended
    (parse : String → Option PackageJson) (rd : Option String) :
    ((checkRepositoryEligibilityLocal parse rd).isEligible = true ↔
      ∃ content pkg, rd = some content ∧ parse content = some pkg
        ∧ hasTailwindDep pkg = true)
  ∧ (rd = none →
      checkRepositoryEligibilityLocal parse rd
        = ⟨false, false, false, some "No package.json found - not a Node.js project"⟩)
  ∧ (∀ content, rd = some content → parse content = none →
      checkRepositoryEligibilityLocal parse rd
        = ⟨false, false, false, some "No package.json found - not a Node.js project"⟩)
  ∧ (∀ content pkg, rd = some content → parse content = some pkg →
      hasTailwindDep pkg = false →
      checkRepositoryEligibilityLocal parse rd
        = ⟨false, false, true, some "No Tailwind CSS found in dependencies"⟩) := by
  refine ⟨?_, ?_, ?_, ?_⟩
  · constructor
    · intro h
      match hrd : rd with
      | none => simp [checkRepositoryEligibilityLocal, hrd] at h
      | some content =>
        match hp : parse content with
        | none => simp [checkRepositoryEligibilityLocal, hp] at h
        | some pkg =>
          by_cases htw : hasTailwindDep pkg = true
          · exact ⟨content, pkg, rfl, hp, htw⟩
          · simp [checkRepositoryEligibilityLocal, hp, htw] at h
    · rintro ⟨content, pkg, hrd, hp, htw⟩
      subst hrd
      simp [checkRepositoryEligibilityLocal, hp, htw]
  · intro h
    subst h
    rfl
  · intro content h hp
    subst h
    simp [checkRepositoryEligibilityLocal, hp]
  · intro content pkg h hp htw
    subst h
    simp [checkRepositoryEligibilityLocal, hp, htw]

/-- Witness for the amended C6 at concrete inputs: a manifest declaring
`tailwindcss` is eligible; a missing manifest yields the missing-manifest
record. -/
theorem checkRepositoryEligibilityLocal_amended_witness :
    ((checkRepositoryEligibilityLocal
        (fun s => if s = "good" then some ⟨["tailwindcss"], []⟩ else none)
        (some "good")).isEligible = true
      ↔ ∃ content pkg, (some "good" : Option String) = some content
          ∧ (if content = "good" then some (⟨["tailwindcss"], []⟩ : PackageJson) else none)
              = some pkg
          ∧ hasTailwindDep pkg = true)
  ∧ checkRepositoryEligibilityLocal
        (fun s => if s = "good" then some ⟨["tailwindcss"], []⟩ else none) none
      = ⟨false, false, false, some "No package.json found - not a Node.js project"⟩ :=
  ⟨(checkRepositoryEligibilityLocal_amended
      (fun s => if s = "good" then some ⟨["tailwindcss"], []⟩ else none)
      (some "good")).1,
   (checkRepositoryEligibilityLocal_amended
      (fun s => if s = "good" then some ⟨["tailwindcss"], []⟩ else none)
      none).2.1 rfl⟩

theorem validNameChar_not_ws (c : Char) (h : validNameChar c = true) :
    c.isWhitespace = false := by
  rcases Bool.eq_false_or_eq_true c.isWhitespace with ht | hf
  · exfalso
    have hcases : ((c = ' ' ∨ c = '\t') ∨ c = '\r') ∨ c = '\n' := by
      simpa [Char.isWhitespace] using ht
    rcases hcases with ((h1 | h1) | h1) | h1 <;> subst h1 <;> revert h <;> decide
  · exact hf

theorem dropWhile_eq_self_of_none (p : Char → Bool) (l : List Char)
    (h : ∀ c ∈ l, p c = false) : l.dropWhile p = l := by
  cases l with
  | nil => rfl
  | cons c cs => simp [List.dropWhile_cons, h c (by simp)]

theorem jsTrim_eq_self (s : String) (h : ∀ c ∈ s.data, c.isWhitespace = false) :
    jsTrim s = s := by
  unfold jsTrim
  rw [dropWhile_eq_self_of_none _ _ h,
    dropWhile_eq_self_of_none _ _ (fun c hc => h c (by simpa using hc)),
    List.reverse_reverse]

theorem splitOnChar_no_sep (sep : Char) (ys : List Char) (h : sep ∉ ys) :
    splitOnChar sep ys = [ys] := by
  induction ys with
  | nil => rfl
  | cons c cs ih =>
    have hc : (c == sep) = false := by
      simp only [beq_eq_false_iff_ne, ne_eq]
      intro he
      exact h (he ▸ List.mem_cons_self c cs)
    rw [splitOnChar]
    simp only [hc, Bool.false_eq_true, if_false]
    rw [ih (fun hm => h (List.mem_cons_of_mem c hm))]

theorem splitOnChar_once (sep : Char) (xs ys : List Char)
    (hx : sep ∉ xs) (hy : sep ∉ ys) :
    splitOnChar sep (xs ++ sep :: ys) = [xs, ys] := by
  induction xs with
  | nil =>
    rw [List.nil_append, splitOnChar]
    simp only [beq_self_eq_true, if_true]
    rw [splitOnChar_no_sep sep ys hy]
  | cons c cs ih =>
    have hc : (c == sep) = false := by
      simp only [beq_eq_false_iff_ne, ne_eq]
      intro he
      exact hx (he ▸ List.mem_cons_self c cs)
    rw [List.cons_append, splitOnChar]
    simp only [hc, Bool.false_eq_true, if_false]
    rw [ih (fun hm => hx (List.mem_cons_of_mem c hm))]

theorem mem_of_validNameChar_all (l : List Char) (h : l.all validNameChar = true) :
    '/' ∉ l := by
  intro hm
  have := List.all_eq_true.mp h '/' hm
  revert this
  decide

theorem isShortForm_mk (ow nm : List Char)
    (ho : ow ≠ [] ∧ ow.all validNameChar = true)
    (hn : nm ≠ [] ∧ nm.all validNameChar = true) :
    isShortForm ⟨ow ++ '/' :: nm⟩ = true := by
  unfold isShortForm
  show (match splitOnChar '/' (ow ++ '/' :: nm) with
    | [ow, nm] =>
      !ow.isEmpty && !nm.isEmpty && ow.all validNameChar && nm.all validNameChar
    | _ => false) = true
  rw [splitOnChar_once '/' ow nm (mem_of_validNameChar_all ow ho.2)
    (mem_of_validNameChar_all nm hn.2)]
  have hoe : ow.isEmpty = false := by
    cases h3 : ow with
    | nil => exact absurd h3 ho.1
    | cons a as => rfl
  have hne : nm.isEmpty = false := by
    cases h3 : nm with
    | nil => exact absurd h3 hn.1
    | cons a as => rfl
  simp [hoe, hne, ho.2, hn.2]

/-- C9: for every `owner/name` shorthand with both segments drawn from the
allowed charset (letters, digits, dots, underscores, hyphens),
`normalizeGitHubUrl` produces the full repository URL
`https://github.com/owner/name`, the trailing-slash variant included. -/
theorem normalizeGitHubUrl_shortform (owner name : String)
    (ho : owner.data ≠ [] ∧ owner.data.all validNameChar = true)
    (hn : name.data ≠ [] ∧ name.data.all validNameChar = true) :
    normalizeGitHubUrl (owner ++ "/" ++ name)
        = .ok ("https://github.com/" ++ owner ++ "/" ++ name)
  ∧ normalizeGitHubUrl (owner ++ "/" ++ name ++ "/")
        = .ok ("https://github.com/" ++ owner ++ "/" ++ name) := by
  have hslash : ("/" : String).data = ['/'] := rfl
  have hdata1 : (owner ++ "/" ++ name).data = owner.data ++ '/' :: name.data := by
    simp [String.data_append, hslash]
  have hdata2 : (owner ++ "/" ++ name ++ "/").data
      = (owner.data ++ '/' :: name.data) ++ ['/'] := by
    simp [String.data_append, hslash]
  have htarget : ∀ s : String, s.data = owner.data ++ '/' :: name.data →
      ("https://github.com/" ++ s) = "https://github.com/" ++ owner ++ "/" ++ name := by
    intro s hs
    have : ("https://github.com/" ++ s).data
        = ("https://github.com/" ++ owner ++ "/" ++ name).data := by
      simp [String.data_append, hslash, hs]
    cases h1 : ("https://github.com/" ++ s)
    cases h2 : ("https://github.com/" ++ owner ++ "/" ++ name)
    rw [h1, h2] at this
    exact congrArg String.mk (by simpa using this)
  have hrevname : ∃ c l, name.data.reverse = c :: l ∧ c ∈ name.data := by
    cases hnm : name.data.reverse with
    | nil =>
      exfalso
      apply hn.1
      have := congrArg List.reverse hnm
      simpa using this
    | cons c l =>
      refine ⟨c, l, rfl, ?_⟩
      have hc : c ∈ name.data.reverse := by rw [hnm]; simp
      simpa using hc
  -- part 1: no trailing slash
  have hws1 : ∀ c ∈ (owner ++ "/" ++ name).data, c.isWhitespace = false := by
    intro c hc
    rw [hdata1] at hc
    rcases List.mem_append.mp hc with h1 | h1
    · exact validNameChar_not_ws c (List.all_eq_true.mp ho.2 c h1)
    · rcases List.mem_cons.mp h1 with h2 | h2
      · subst h2; decide
      · exact validNameChar_not_ws c (List.all_eq_true.mp hn.2 c h2)
  have hne1 : ¬ ((owner ++ "/" ++ name) = "") := by
    intro h
    have hd : (owner ++ "/" ++ name).data = [] := by rw [h]
    rw [hdata1] at hd
    simp at hd
  have hends1 : strEndsWith (owner ++ "/" ++ name) "/" = false := by
    obtain ⟨c, l, hcl, hcm⟩ := hrevname
    have hcne : ('/' == c) = false := by
      simp only [beq_eq_false_iff_ne, ne_eq]
      intro he
      exact mem_of_validNameChar_all name.data hn.2 (he ▸ hcm)
    unfold strEndsWith
    rw [hdata1]
    show leadsWith ['/'] ((owner.data ++ '/' :: name.data).reverse) = false
    rw [List.reverse_append, List.reverse_cons, hcl]
    show leadsWith ['/'] (c :: (l ++ ['/'] ++ owner.data.reverse)) = false
    unfold leadsWith
    simp [hcne]
  have hshort1 : isShortForm (owner ++ "/" ++ name) = true := by
    have := isShortForm_mk owner.data name.data ho hn
    have heq : (⟨owner.data ++ '/' :: name.data⟩ : String) = owner ++ "/" ++ name := by
      cases h2 : (owner ++ "/" ++ name)
      exact congrArg String.mk (by rw [← hdata1, h2])
    rwa [heq] at this
  have part1 : normalizeGitHubUrl (owner ++ "/" ++ name)
      = .ok ("https://github.com/" ++ owner ++ "/" ++ name) := by
    rw [normalizeGitHubUrl, if_neg hne1, jsTrim_eq_self _ hws1, hends1]
    simp only [Bool.false_eq_true, if_false]
    rw [normalizeCleaned, if_pos hshort1]
    exact congrArg Except.ok (htarget _ hdata1)
  -- part 2: with a trailing slash
  have hws2 : ∀ c ∈ (owner ++ "/" ++ name ++ "/").data, c.isWhitespace = false := by
    intro c hc
    rw [hdata2] at hc
    rcases List.mem_append.mp hc with h1 | h1
    · exact hws1 c (by rw [hdata1]; exact h1)
    · have : c = '/' := by simpa using h1
      subst this; decide
  have hne2 : ¬ ((owner ++ "/" ++ name ++ "/") = "") := by
    intro h
    have hd : (owner ++ "/" ++ name ++ "/").data = [] := by rw [h]
    rw [hdata2] at hd
    simp at hd
  have hends2 : strEndsWith (owner ++ "/" ++ name ++ "/") "/" = true := by
    unfold strEndsWith
    rw [hdata2]
    show leadsWith ['/'] (((owner.data ++ '/' :: name.data) ++ ['/']).reverse) = true
    rw [List.reverse_append]
    show leadsWith ['/'] ('/' :: (owner.data ++ '/' :: name.data).reverse) = true
    simp [leadsWith]
  have part2 : normalizeGitHubUrl (owner ++ "/" ++ name ++ "/")
      = .ok ("https://github.com/" ++ owner ++ "/" ++ name) := by
    rw [normalizeGitHubUrl, if_neg hne2, jsTrim_eq_self _ hws2, hends2]
    simp only [if_true]
    rw [hdata2, List.dropLast_concat]
    rw [normalizeCleaned, if_pos (isShortForm_mk owner.data name.data ho hn)]
    exact congrArg Except.ok (htarget _ rfl)
  exact ⟨part1, part2⟩

/-- Witness for C9 at the spec's Scenario A input `octocat/hello-world`. -/
theorem normalizeGitHubUrl_shortform_witness :
    normalizeGitHubUrl ("octocat" ++ "/" ++ "hello-world")
        = .ok ("https://github.com/" ++ "octocat" ++ "/" ++ "hello-world")
  ∧ normalizeGitHubUrl ("octocat" ++ "/" ++ "hello-world" ++ "/")
        = .ok ("https://github.com/" ++ "octocat" ++ "/" ++ "hello-world") :=
  normalizeGitHubUrl_shortform "octocat" "hello-world"
    ⟨by decide, by decide⟩ ⟨by decide, by decide⟩

/-- C1 counterexample: with both invocations interleaved as cleanup, SELECT,
cleanup, SELECT, UPDATE, UPDATE over a reclaimable (`failed`) record, BOTH
invocations return a successful lock acquisition — the claim's
"never both observe a successful acquisition" fails on the code, which runs
the check and the update as separate store operations without a transaction. -/
theorem lockRace_both_acquire :
    ((runLockRace 1000000 [false, true, false, true, false, true] (some raceRepo)
        (lockThreadStart false) (lockThreadStart false)).2.1.result).isSome = true
  ∧ ((runLockRace 1000000 [false, true, false, true, false, true] (some raceRepo)
        (lockThreadStart false) (lockThreadStart false)).2.2.result).isSome = true := by
  decide

/-- C1 amended: when the two invocations are serialized (one performs all
three store operations before the other starts), exactly one of them acquires
the lock on a reclaimable record: the first returns the record transitioned to
`processing`, the second observes it `processing` and returns null; a caller
reaching the SSE entry after the acquisition observes the conflict outcome. -/
theorem lock_serialized_at_most_one (now : Int) (r : Repository)
    (hst : r.status = "failed") (hps : r.processing_started_at = none) :
    (runLockRace now [false, false, false, true, true, true] (some r)
        (lockThreadStart false) (lockThreadStart false)).2.1.result
      = some { r with status := "processing", processing_started_at := some now }
  ∧ (runLockRace now [false, false, false, true, true, true] (some r)
        (lockThreadStart false) (lockThreadStart false)).2.2.result = none
  ∧ sseEntryDecision now
        (some { r with status := "processing", processing_started_at := some now })
      = (some { r with status := "processing", processing_started_at := some now },
         SSEOutcome.conflict) := by
  have hnotlt : ¬ (now < now - staleMs) := by
    simp only [staleMs]
    omega
  obtain ⟨rid, rurl, row, rname, rbr, ran, rst, rie, rht, rhp, rer, rtf, rpf, rtc, rps⟩ := r
  simp only at hst hps
  subst hst
  subst hps
  refine ⟨?_, ?_, ?_⟩
  · simp [runLockRace, lockThreadStep, lockThreadStart, cleanupStaleProcessingStates, hnotlt]
  · simp [runLockRace, lockThreadStep, lockThreadStart, cleanupStaleProcessingStates, hnotlt]
  · simp [sseEntryDecision]

/-- Witness for the amended C1 at a concrete record and time. -/
theorem lock_serialized_at_most_one_witness :
    (runLockRace 1000000 [false, false, false, true, true, true] (some raceRepo)
        (lockThreadStart false) (lockThreadStart false)).2.1.result
      = some { raceRepo with
                 status := "processing"
                 processing_started_at := some 1000000 }
  ∧ (runLockRace 1000000 [false, false, false, true, true, true] (some raceRepo)
        (lockThreadStart false) (lockThreadStart false)).2.2.result = none
  ∧ sseEntryDecision 1000000
        (some { raceRepo with
                  status := "processing"
                  processing_started_at := some 1000000 })
      = (some { raceRepo with
                  status := "processing"
                  processing_started_at := some 1000000 },
         SSEOutcome.conflict) :=
  lock_serialized_at_most_one 1000000 raceRepo rfl rfl

/-- C2 (evaluation at the failing input): at time 100000000 a `processing`
record started 11 minutes earlier is NOT reclaimed by the next analysis
request — the SSE entry returns a conflict with the store unchanged, because
its `status === 'processing'` check runs before `tryAcquireProcessingLock`
(the only caller of the stale cleanup). The remaining conjuncts show the
reclamation machinery itself would reset the record to `failed` and acquire
the lock if it were reached, and that a 9-minute-old lock is (correctly) left
alone by the cleanup. -/
theorem staleLock_not_reclaimed :
    sseEntryDecision 100000000 (some staleRepo) = (some staleRepo, SSEOutcome.conflict)
  ∧ sseEntryDecision 100000000 (some nineMinRepo)
      = (some nineMinRepo, SSEOutcome.conflict)
  ∧ cleanupStaleProcessingStates 100000000 (some staleRepo)
      = some { staleRepo with status := "failed", processing_started_at := none }
  ∧ (tryAcquireProcessingLock 100000000 false (some staleRepo)).2
      = some { staleRepo with
                 status := "processing"
                 processing_started_at := some 100000000 }
  ∧ cleanupStaleProcessingStates 100000000 (some nineMinRepo) = some nineMinRepo := by
  decide

/-- C3: for a completed record, a cache age strictly below 48 hours makes the
SSE entry serve the cache — the store is untouched, and the full run emits
only the initial progress event, the completed payload and the close, with no
lock attempt and no clone/parsing events; at 48 hours or more the entry
acquires the processing lock (with force, since the record is completed) and
proceeds to reprocessing. -/
theorem cache_freshness_boundary (now : Int) (r : Repository)
    (hst : r.status = "completed") :
    (now - r.analyzed_at < freshMs →
        sseEntryDecision now (some r) = (some r, SSEOutcome.cacheHit)
      ∧ ∀ cl ex, runTrace ⟨true, true, some r, now, cl, ex, none⟩
          = [ChannelAction.emit SSEEventKind.progress,
             ChannelAction.emit SSEEventKind.completed, ChannelAction.close])
  ∧ (freshMs ≤ now - r.analyzed_at →
      sseEntryDecision now (some r)
        = (some { r with status := "processing", processing_started_at := some now },
           SSEOutcome.lockAcquired
             { r with status := "processing", processing_started_at := some now })) := by
  obtain ⟨rid, rurl, row, rname, rbr, ran, rst, rie, rht, rhp, rer, rtf, rpf, rtc, rps⟩ := r
  simp only at hst
  subst hst
  constructor
  · intro hlt
    have hdec : sseEntryDecision now (some ⟨rid, rurl, row, rname, rbr, ran,
        "completed", rie, rht, rhp, rer, rtf, rpf, rtc, rps⟩)
        = (some ⟨rid, rurl, row, rname, rbr, ran, "completed", rie, rht, rhp,
            rer, rtf, rpf, rtc, rps⟩, SSEOutcome.cacheHit) := by
      simp [sseEntryDecision, hlt]
    refine ⟨hdec, ?_⟩
    intro cl ex
    simp [runTrace, bodyTrace, hdec]
  · intro hge
    have hnlt : ¬ (now - ran < freshMs) := not_lt.mpr hge
    cases rps with
    | none =>
      simp [sseEntryDecision, hnlt, tryAcquireProcessingLock,
        cleanupStaleProcessingStates]
    | some t =>
      simp [sseEntryDecision, hnlt, tryAcquireProcessingLock,
        cleanupStaleProcessingStates]

/-- Witness for C3: the concrete completed record analyzed at time 0 is a
cache hit at 47h59m (172740000 ms) and triggers lock acquisition at 48h01m
(172860000 ms). -/
theorem cache_freshness_boundary_witness :
    sseEntryDecision 172740000 (some cachedRepo) = (some cachedRepo, SSEOutcome.cacheHit)
  ∧ sseEntryDecision 172860000 (some cachedRepo)
      = (some { cachedRepo with
                  status := "processing"
                  processing_started_at := some 172860000 },
         SSEOutcome.lockAcquired
           { cachedRepo with
               status := "processing"
               processing_started_at := some 172860000 }) :=
  ⟨((cache_freshness_boundary 172740000 cachedRepo rfl).1 (by decide)).1,
   (cache_freshness_boundary 172860000 cachedRepo rfl).2 (by decide)⟩

/-- C4 counterexample: the record inserted by `analyzeRepository` for a fresh
eligible repository (lines 82-96) has `status = 'processing'` together with
`processing_started_at = null`, violating the invariant that the timestamp is
non-null iff the status is `processing`. -/
theorem legacyInsert_breaks_invariant :
    ¬ repoInvariant (legacyProcessingInsert 1 "https://github.com/acme/app"
        "acme" "app" (some "main") 0 ⟨true, true, true, none⟩) := by
  simp [repoInvariant, legacyProcessingInsert]

/-- C4 amended: every write of the SSE analysis pipeline — ineligible insert,
eligible insert, lock acquisition, file-count and progress updates,
ineligible-on-reprocess update, completion update, lock release with a
non-`processing` final status, and the stale cleanup — establishes or
preserves the invariant; the legacy `analyzeRepository` creation insert is the
one write that violates it. -/
theorem pipeline_writes_invariant (now : Int) (rid n k totalClasses : Nat)
    (repoUrl ow nm finalStatus : String) (branch : Option String)
    (elig : EligibilityResult) (r : Repository) (hr : repoInvariant r)
    (hfs : finalStatus ≠ "processing") :
    repoInvariant (ineligibleInsert rid repoUrl ow nm branch now elig)
  ∧ repoInvariant (sseProcessingInsert rid repoUrl ow nm branch now elig)
  ∧ repoInvariant (acquireUpdate now r)
  ∧ repoInvariant (fileCountsUpdate n r)
  ∧ repoInvariant (progressUpdate k r)
  ∧ repoInvariant (ineligibleUpdate now elig r)
  ∧ repoInvariant (completionUpdate now totalClasses r)
  ∧ repoInvariant (releaseUpdate now finalStatus r)
  ∧ (∀ y, cleanupStaleProcessingStates now (some r) = some y → repoInvariant y) := by
  refine ⟨?_, ?_, ?_, ?_, ?_, ?_, ?_, ?_, ?_⟩
  · simp [repoInvariant, ineligibleInsert]
  · simp [repoInvariant, sseProcessingInsert]
  · simp [repoInvariant, acquireUpdate]
  · simpa [repoInvariant, fileCountsUpdate] using hr
  · simpa [repoInvariant, progressUpdate] using hr
  · simp [repoInvariant, ineligibleUpdate]
  · simp [repoInvariant, completionUpdate]
  · simp [repoInvariant, releaseUpdate, hfs]
  · intro y hy
    rw [show cleanupStaleProcessingStates now (some r)
        = (match r.processing_started_at with
           | some t =>
             if r.status = "processing" ∧ t < now - staleMs then
               some { r with status := "failed", processing_started_at := none }
             else some r
           | none => some r) from rfl] at hy
    cases hps : r.processing_started_at with
    | none =>
      rw [hps] at hy
      cases hy
      exact hr
    | some t =>
      rw [hps] at hy
      have hy2 : (if r.status = "processing" ∧ t < now - staleMs then
          some { r with status := "failed", processing_started_at := none }
        else some r) = some y := hy
      by_cases hc : r.status = "processing" ∧ t < now - staleMs
      · rw [if_pos hc] at hy2
        cases hy2
        simp [repoInvariant]
      · rw [if_neg hc] at hy2
        cases hy2
        exact hr

/-- Witness for the amended C4 at a concrete invariant-satisfying record,
concrete field values and final status `failed`. -/
theorem pipeline_writes_invariant_witness :
    repoInvariant (ineligibleInsert 5 "u" "o" "n" (some "main") 0 ⟨false, false, false, none⟩)
  ∧ repoInvariant (sseProcessingInsert 5 "u" "o" "n" (some "main") 0 ⟨true, true, true, none⟩)
  ∧ repoInvariant (acquireUpdate 0 raceRepo)
  ∧ repoInvariant (fileCountsUpdate 4 raceRepo)
  ∧ repoInvariant (progressUpdate 2 raceRepo)
  ∧ repoInvariant (ineligibleUpdate 0 ⟨false, false, true, none⟩ raceRepo)
  ∧ repoInvariant (completionUpdate 0 9 raceRepo)
  ∧ repoInvariant (releaseUpdate 0 "failed" raceRepo)
  ∧ (∀ y, cleanupStaleProcessingStates 0 (some raceRepo) = some y → repoInvariant y) :=
  pipeline_writes_invariant 0 5 4 2 9 "u" "o" "n" "failed" (some "main")
    ⟨false, false, false, none⟩ raceRepo (by simp [repoInvariant, raceRepo])
    (by decide)

theorem cleanPre_nil : cleanPre [] := by
  intro a ha
  exact absurd ha (List.not_mem_nil a)

theorem cleanPre_append (xs ys : List ChannelAction) (hx : cleanPre xs)
    (hy : cleanPre ys) : cleanPre (xs ++ ys) := by
  intro a ha
  rcases List.mem_append.mp ha with h | h
  · exact hx a h
  · exact hy a h

theorem cleanPre_cons (a : ChannelAction) (xs : List ChannelAction)
    (ha : a ≠ ChannelAction.close
      ∧ ∀ e, a = ChannelAction.emit e → isTerminal e = false)
    (hx : cleanPre xs) : cleanPre (a :: xs) := by
  intro b hb
  rcases List.mem_cons.mp hb with h | h
  · subst h
    exact ha
  · exact hx b h

theorem clean_action_emit (e : SSEEventKind) (he : isTerminal e = false) :
    ChannelAction.emit e ≠ ChannelAction.close
      ∧ ∀ x, ChannelAction.emit e = ChannelAction.emit x → isTerminal x = false := by
  refine ⟨by simp, ?_⟩
  intro x hx
  cases hx
  exact he

theorem cleanPre_perFileEvents (files : List (String × Option String)) :
    cleanPre (perFileEvents files) := by
  intro a ha
  rw [perFileEvents] at ha
  rcases List.mem_flatten.mp ha with ⟨l, hl, hal⟩
  rcases List.mem_map.mp hl with ⟨f, _, hfl⟩
  subst hfl
  rcases List.mem_cons.mp hal with h | h
  · subst h
    exact clean_action_emit _ rfl
  · rcases List.mem_cons.mp h with h2 | h2
    · subst h2
      exact clean_action_emit _ rfl
    · exact absurd h2 (List.not_mem_nil a)

theorem cleanPre_replicate_progress (n : Nat) :
    cleanPre (List.replicate n (ChannelAction.emit SSEEventKind.progress)) := by
  intro a ha
  have h := List.eq_of_mem_replicate ha
  subst h
  exact clean_action_emit SSEEventKind.progress rfl

theorem traceShape_terminal (t : SSEEventKind) (ht : isTerminal t = true) :
    traceShape [ChannelAction.emit t, ChannelAction.close] :=
  ⟨[], t, rfl, ht, cleanPre_nil⟩

theorem traceShape_cons (a : ChannelAction)
    (ha : a ≠ ChannelAction.close
      ∧ ∀ e, a = ChannelAction.emit e → isTerminal e = false)
    (tr : List ChannelAction) (h : traceShape tr) : traceShape (a :: tr) := by
  obtain ⟨pre, t, htr, hterm, hclean⟩ := h
  exact ⟨a :: pre, t, by rw [htr]; rfl, hterm, cleanPre_cons a pre ha hclean⟩

theorem traceShape_analysisEvents (ex : String → List String)
    (files : List (String × Option String)) :
    traceShape (analysisEvents ex files) := by
  refine traceShape_cons _ (clean_action_emit SSEEventKind.progress rfl) _ ?_
  refine ⟨perFileEvents (files.filter (fun f => shouldParseFile f.1))
      ++ ([ChannelAction.emit SSEEventKind.progress,
           ChannelAction.emit SSEEventKind.progress]
          ++ List.replicate (batchCount ex files)
              (ChannelAction.emit SSEEventKind.progress)),
    SSEEventKind.completed, ?_, rfl, ?_⟩
  · simp [List.append_assoc]
  · refine cleanPre_append _ _ (cleanPre_perFileEvents _)
      (cleanPre_append _ _ ?_ (cleanPre_replicate_progress _))
    intro a ha
    rcases List.mem_cons.mp ha with h | h
    · subst h
      exact clean_action_emit _ rfl
    · rcases List.mem_cons.mp h with h2 | h2
      · subst h2
        exact clean_action_emit _ rfl
      · exact absurd h2 (List.not_mem_nil a)

theorem traceShape_bodyTrace (env : RunEnv) : traceShape (bodyTrace env) := by
  unfold bodyTrace
  by_cases hdb : env.dbAvailable = false
  · rw [if_pos hdb]
    exact traceShape_terminal _ rfl
  · rw [if_neg hdb]
    by_cases hp : env.parsedOk = false
    · rw [if_pos hp]
      exact traceShape_terminal _ rfl
    · rw [if_neg hp]
      refine traceShape_cons _ (clean_action_emit SSEEventKind.progress rfl) _ ?_
      rcases hdec : (sseEntryDecision env.now env.existing).2 with _ | _ | _ | locked
      · exact traceShape_terminal _ rfl
      · exact traceShape_terminal _ rfl
      · refine traceShape_cons _ (clean_action_emit SSEEventKind.progress rfl) _ ?_
        rcases hcl : env.clone with _ | ⟨elig, files⟩
        · exact traceShape_terminal _ rfl
        · show traceShape (if elig.isEligible = false then
            [ChannelAction.emit SSEEventKind.error, ChannelAction.close]
          else analysisEvents env.extract files)
          by_cases he : elig.isEligible = false
          · rw [if_pos he]
            exact traceShape_terminal _ rfl
          · rw [if_neg he]
            exact traceShape_analysisEvents env.extract files
      · refine traceShape_cons _ (clean_action_emit SSEEventKind.progress rfl) _ ?_
        rcases hcl : env.clone with _ | ⟨elig, files⟩
        · exact traceShape_terminal _ rfl
        · show traceShape (if elig.isEligible = false then
            [ChannelAction.emit SSEEventKind.error, ChannelAction.close]
          else analysisEvents env.extract files)
          by_cases he : elig.isEligible = false
          · rw [if_pos he]
            exact traceShape_terminal _ rfl
          · rw [if_neg he]
            exact traceShape_analysisEvents env.extract files

theorem traceShape_runTrace (env : RunEnv) : traceShape (runTrace env) := by
  unfold runTrace
  rcases hcr : env.crash with _ | k
  · exact traceShape_bodyTrace env
  · show traceShape (if k < (bodyTrace env).length - 2 then
      (bodyTrace env).take k
        ++ [ChannelAction.emit SSEEventKind.error, ChannelAction.close]
    else bodyTrace env)
    by_cases hk : k < (bodyTrace env).length - 2
    · rw [if_pos hk]
      obtain ⟨pre, t, htr, hterm, hclean⟩ := traceShape_bodyTrace env
      have hlen : (bodyTrace env).length = pre.length + 2 := by
        rw [htr]
        simp
      have hkpre : k ≤ pre.length := by omega
      refine ⟨(bodyTrace env).take k, SSEEventKind.error, rfl, rfl, ?_⟩
      rw [htr, List.take_append_of_le_length hkpre]
      intro a ha
      exact hclean a (List.take_subset k pre ha)
    · rw [if_neg hk]
      exact traceShape_bodyTrace env

/-- C5: every run of `analyzeRepositoryWithSSE` — cache hits, conflicts,
invalid input, unavailable store, clone failures, ineligible repositories,
full analyses, and runs interrupted by an exception at any await point —
emits exactly one terminal event (`completed` or `error`), closes the channel
exactly once immediately after it, and performs no channel action after the
close: the trace is a terminal-free, close-free prefix followed by the
terminal emit and the close. -/
theorem runTrace_single_terminal (env : RunEnv) :
    ∃ pre t, runTrace env = pre ++ [ChannelAction.emit t, ChannelAction.close]
      ∧ isTerminal t = true ∧ cleanPre pre :=
  traceShape_runTrace env

/-- Witness for C5 at a concrete environment (clone failure, no crash). -/
theorem runTrace_single_terminal_witness :
    ∃ pre t, runTrace ⟨true, true, none, 0, CloneResult.failure, fun _ => [], none⟩
        = pre ++ [ChannelAction.emit t, ChannelAction.close]
      ∧ isTerminal t = true ∧ cleanPre pre :=
  runTrace_single_terminal ⟨true, true, none, 0, CloneResult.failure, fun _ => [], none⟩

end Tallywind
